import Mathlib

/-!
Shallow embedding of the ServiceScope analysis pipeline
(`app/extraction/extract_http_calls.py`, `app/tasks/analyzer.py`,
`app/models/job.py`, `app/db/Neo4j_session.py`) together with proofs of the
specification claims about it.
-/

namespace ServiceScope

/-! ### Python AST fragment used by the extractor

`extract_http_calls.py` inspects `ast.Call` nodes.  We embed the fragment of
the Python AST the visitor distinguishes: names, attribute accesses, literal
constants (`ast.Constant`, which covers strings as well as numbers, booleans
and `None`), binary operations (e.g. string concatenation) and calls. -/

/-- The value carried by an `ast.Constant` node. -/
inductive PyConst where
  | str (s : String)
  | int (n : Int)
  | bool (b : Bool)
  | none_
deriving DecidableEq, Repr

/-- Expression fragment of the Python AST that `APICallVisitor` distinguishes. -/
inductive PyExpr where
  | name (id : String)
  | attribute (value : PyExpr) (attr : String)
  | constant (v : PyConst)
  | binOp (left right : PyExpr)
  | call (func : PyExpr) (args : List PyExpr) (lineno : Nat)

/-- A raw record appended by `APICallVisitor.visit_Call`:
`{"method": ..., "url": node.args[0].value, "line": node.lineno}`.
The `url` field holds whatever constant value the first argument carried. -/
structure RawCall where
  method : String
  url : PyConst
  line : Nat
deriving DecidableEq, Repr

/-- The five HTTP verbs matched by the visitor. -/
def httpVerbs : List String := ["get", "post", "put", "delete", "patch"]

/-- Python `s.startswith(pre)`. -/
def pyStartsWith (s pre : String) : Bool :=
  decide (s.toList.take pre.toList.length = pre.toList)

/-- Python `s.endswith(suffix)`. -/
def pyEndsWith (s suffix : String) : Bool :=
  decide (s.toList.reverse.take suffix.toList.length = suffix.toList.reverse)

/-- Python `c in s` for a one-character needle. -/
def pyContainsChar (s : String) (c : Char) : Bool :=
  decide (c ∈ s.toList)

/-- Python `s.split(sep)` for a one-character separator (`os.sep`):
splits at every occurrence, keeping empty pieces, and yields `[""]` for
the empty string — in particular the result is never the empty list. -/
def splitChar (sep : Char) : List Char → List (List Char)
  | [] => [[]]
  | c :: rest =>
    match splitChar sep rest with
    | [] => [[c]]
    | h :: t => if c = sep then [] :: h :: t else (c :: h) :: t

/-- Python `s.split(sep)` on strings, one-character separator. -/
def pySplit (s : String) (sep : Char) : List String :=
  (splitChar sep s.toList).map List.asString

/-- The node-level matching done by `APICallVisitor.visit_Call` on one
`ast.Call` node (before `generic_visit` recurses into children):
pattern 1 (`requests.<verb>`), pattern 2 (`httpx.<verb>`), pattern 3
(any other attribute call named like a verb whose first argument is a
string literal that starts with "http" or contains "/"). -/
def matchCall (func : PyExpr) (args : List PyExpr) (lineno : Nat) : List RawCall :=
  match func with
  | .attribute (.name "requests") attr =>
    if attr ∈ httpVerbs then
      match args with
      | .constant v :: _ => [{ method := attr, url := v, line := lineno }]
      | _ => []
    else []
  | .attribute (.name "httpx") attr =>
    if attr ∈ httpVerbs then
      match args with
      | .constant v :: _ => [{ method := attr, url := v, line := lineno }]
      | _ => []
    else []
  | .attribute _ attr =>
    if attr ∈ httpVerbs then
      match args with
      | .constant (.str url) :: _ =>
        if pyStartsWith url "http" || pyContainsChar url '/' then
          [{ method := attr, url := .str url, line := lineno }]
        else []
      | _ => []
    else []
  | _ => []

mutual

/-- All records produced by running `APICallVisitor` over an expression:
every `Call` node, at any depth, is matched by `matchCall`, and
`generic_visit` recurses into the children. -/
def extractCalls : PyExpr → List RawCall
  | .name _ => []
  | .constant _ => []
  | .attribute value _ => extractCalls value
  | .binOp l r => extractCalls l ++ extractCalls r
  | .call func args lineno =>
    matchCall func args lineno ++ extractCalls func ++ extractCallsList args

/-- Visitor recursion over a list of child expressions. -/
def extractCallsList : List PyExpr → List RawCall
  | [] => []
  | e :: es => extractCalls e ++ extractCallsList es

end

/-- A source file as far as the extractor observes it: either `ast.parse`
raises (unreadable or syntactically invalid) or it yields a body of
expressions to visit. -/
inductive PyFile where
  | invalid
  | parsed (body : List PyExpr)

/-- `extract_http_calls_from_file`: a parse failure is caught, logged and
yields `[]`; otherwise the visitor walks the tree. -/
def extract_http_calls_from_file : PyFile → List RawCall
  | .invalid => []
  | .parsed body => extractCallsList body

/-- A directory in the cloned snapshot: named files with their parsed
content, and named subdirectories. -/
inductive FSTree where
  | mk (files : List (String × PyFile)) (dirs : List (String × FSTree))

/-- The directory names pruned from the walk
(`dirs[:] = [d for d in dirs if d not in [...]]`). -/
def prunedDirs : List String := [".git", "__pycache__", ".venv", "venv", "node_modules"]

/-- One record of `walk_and_extract_calls`: the raw call enriched with
`file` (path relative to the scanned root) and `service`
(`parts[0] if parts else "unknown"` where `parts = rel_path.split(os.sep)`). -/
structure WalkRec where
  method : String
  url : PyConst
  line : Nat
  file : String
  service : String
deriving DecidableEq, Repr

/-- Enrich the records of one file, exactly as the inner loop of
`walk_and_extract_calls` does: `rel_path = os.path.relpath(full_path,
base_dir)`, `parts = rel_path.split(os.sep)`,
`call["service"] = parts[0] if parts else "unknown"`.
`rel` is the segment list from the scanned root to the containing
directory. -/
def enrichRecords (rel : List String) (fname : String) (recs : List RawCall) :
    List WalkRec :=
  recs.map fun c =>
    let relPath := String.intercalate "/" (rel ++ [fname])
    let parts := pySplit relPath '/'
    { method := c.method, url := c.url, line := c.line, file := relPath,
      service := match parts with
        | [] => "unknown"
        | p :: _ => p }

mutual

/-- `walk_and_extract_calls` restricted to the subtree rooted at a directory
whose path from the scanned root is `rel`: process the `.py` files of this
directory (in order), then recurse into the non-pruned subdirectories, as
`os.walk` does top-down. -/
def walkTree (rel : List String) : FSTree → List WalkRec
  | .mk files dirs =>
    (walkFiles rel files) ++ walkDirs rel dirs

/-- Per-file part of the walk: only names ending in ".py" are parsed. -/
def walkFiles (rel : List String) : List (String × PyFile) → List WalkRec
  | [] => []
  | (fname, content) :: rest =>
    (if pyEndsWith fname ".py" then
      enrichRecords rel fname (extract_http_calls_from_file content)
    else []) ++ walkFiles rel rest

/-- Recursion into subdirectories, skipping the pruned names. -/
def walkDirs (rel : List String) : List (String × FSTree) → List WalkRec
  | [] => []
  | (dname, sub) :: rest =>
    (if dname ∈ prunedDirs then [] else walkTree (rel ++ [dname]) sub) ++
      walkDirs rel rest

end

/-- `walk_and_extract_calls(base_dir)`: walk the whole tree from the root. -/
def walk_and_extract_calls (t : FSTree) : List WalkRec :=
  walkTree [] t

/-! ### Dependency inference (`infer_service_dependency` in `analyzer.py`)

The function posts a prompt to the Ollama endpoint and parses the JSON
body.  We embed the response as either a transport-level failure (any
exception raised by `requests.post`, the timeout, or `response.json()`)
or a decoded body in which the `"response"` field may be absent. -/

/-- Python `str.strip()` whitespace set. -/
def isPyWS (c : Char) : Bool :=
  c = ' ' || c = '\t' || c = '\n' || c = '\r' || c = '\x0b' || c = '\x0c'

/-- Drop leading and trailing characters satisfying `p` (Python `str.strip`). -/
def pyStripChars (p : Char → Bool) (s : String) : String :=
  (((s.toList.dropWhile p).reverse.dropWhile p).reverse).asString

/-- Python `str.strip()` with no argument. -/
def pyStrip (s : String) : String := pyStripChars isPyWS s

/-- Python `str.strip('"')`. -/
def pyStripQuotes (s : String) : String := pyStripChars (· = '"') s

/-- Python `s.split('\n')[0]`. -/
def firstLine (s : String) : String :=
  (s.toList.takeWhile (· ≠ '\n')).asString

/-- Python `s.replace("**", "")`: remove every non-overlapping occurrence
of `**`, left to right. -/
def removeStars : List Char → List Char
  | [] => []
  | ['*'] => ['*']
  | '*' :: '*' :: rest => removeStars rest
  | c :: rest => c :: removeStars rest

/-- A decoded Ollama JSON body; `response` is the `"response"` field when
present. -/
structure LLMResponse where
  response : Option String
deriving DecidableEq, Repr

/-- The dict returned by a successful `infer_service_dependency`. -/
structure Inference where
  callee : String
  confidence : ℚ
  model : String
  rawResponse : String
deriving DecidableEq, Repr

/-- Default of `settings.OLLAMA_MODEL` in `config.py`. -/
def ollamaModel : String := "gemma2:latest"

/-- `infer_service_dependency`: a transport error is caught and yields
`None`; a body without a `"response"` field falls through and yields
`None`; otherwise
`cleaned = raw_response.replace("**", "").strip().strip('"').split('\n')[0]`
with `raw_response = data["response"].strip()`, and the confidence is the
hardcoded `0.8`. -/
def infer_service_dependency (resp : Except String LLMResponse) : Option Inference :=
  match resp with
  | .error _ => none
  | .ok data =>
    match data.response with
    | none => none
    | some r =>
      let raw := pyStrip r
      let cleaned := firstLine (pyStripQuotes (pyStrip (removeStars raw.toList).asString))
      some { callee := cleaned, confidence := 4/5, model := ollamaModel,
             rawResponse := raw }

/-! ### Graph materialization (`app/db/Neo4j_session.py`)

The graph-store state: `Service` nodes keyed by `name`, and `CALLS`
relationships.  `create_dependency_edge` runs
`MERGE (caller)-[r:CALLS {url: $url}]->(callee)` — the relationship is
merged on the `(caller, callee, url)` triple — then `SET`s `method`,
`confidence` and `updated_at` on the matched relationship. -/

/-- Identity of a `CALLS` relationship under the `MERGE` pattern:
start node name, end node name, and the `url` property in the MERGE key. -/
abbrev EdgeKey := String × String × PyConst

/-- The properties `SET` on a relationship by `create_dependency_edge`. -/
structure EdgeProps where
  method : String
  confidence : Option ℚ
  updatedAt : Nat
deriving DecidableEq, Repr

/-- Graph-store state: node names and relationships with their properties. -/
structure Graph where
  nodes : List String
  edges : List (EdgeKey × EdgeProps)
deriving DecidableEq, Repr

/-- The empty graph store. -/
def emptyGraph : Graph := { nodes := [], edges := [] }

/-- `MERGE (s:Service {name: $name})`: create the node if absent. -/
def mergeNode (nodes : List String) (n : String) : List String :=
  if n ∈ nodes then nodes else nodes ++ [n]

/-- `MERGE` on a relationship key followed by `SET` of its properties:
overwrite in place when the key exists, else append. -/
def upsertEdge (edges : List (EdgeKey × EdgeProps)) (k : EdgeKey) (p : EdgeProps) :
    List (EdgeKey × EdgeProps) :=
  if k ∈ edges.map Prod.fst then
    edges.map fun e => if e.1 = k then (k, p) else e
  else edges ++ [(k, p)]

/-- `Neo4jClient.create_service_node`: `MERGE (s:Service {name: $name})
SET s += $properties` with `properties = {"name": service_name}`. -/
def create_service_node (g : Graph) (service_name : String) : Graph :=
  { g with nodes := mergeNode g.nodes service_name }

/-- `Neo4jClient.create_dependency_edge`: merge both endpoint nodes, merge
the relationship keyed on `(caller, callee, url)`, and set `method`,
`confidence`, `updated_at = datetime()` (modelled by `now`). -/
def create_dependency_edge (g : Graph) (caller callee : String) (method : String)
    (url : PyConst) (confidence : Option ℚ) (now : Nat) : Graph :=
  let nodes := mergeNode (mergeNode g.nodes caller) callee
  { nodes := nodes,
    edges := upsertEdge g.edges (caller, callee, url)
      { method := method, confidence := confidence, updatedAt := now } }

/-- One inferred dependency joined with its extracted call, as the loop in
`load_to_neo4j` sees it: `(dependency.caller_service,
dependency.callee_service, call.method, call.url, dependency.confidence)`. -/
structure DepRecord where
  caller : String
  callee : String
  method : String
  url : PyConst
  confidence : Option ℚ
deriving DecidableEq, Repr

/-- Body of the `load_to_neo4j` loop for one joined record:
`create_service_node(caller)`, `create_service_node(callee)`,
`create_dependency_edge(...)`. -/
def loadOne (g : Graph) (r : DepRecord) (now : Nat) : Graph :=
  let g1 := create_service_node g r.caller
  let g2 := create_service_node g1 r.callee
  create_dependency_edge g2 r.caller r.callee r.method r.url r.confidence now

/-- The whole materialization loop of `load_to_neo4j` over the joined
records, in order. -/
def load_to_neo4j_loop (g : Graph) (rs : List DepRecord) (now : Nat) : Graph :=
  rs.foldl (fun g r => loadOne g r now) g

/-! ### Job state (`app/models/job.py`) -/

/-- `JobStatus` enum. -/
inductive JobStatus where
  | queued
  | running
  | completed
  | failed
  | cancelled
deriving DecidableEq, Repr

/-- `RepositoryStatus` enum (`app/models/repository.py`), as used by the
pipeline. -/
inductive RepoStatus where
  | pending
  | cloning
  | analyzing
  | completed
  | failed
deriving DecidableEq, Repr

/-- The `AnalysisJob` row fields the pipeline manipulates.  `startedSet` and
`completedSet` record whether `started_at` / `completed_at` are non-NULL. -/
structure Job where
  status : JobStatus
  progress : ℚ
  startedSet : Bool
  completedSet : Bool
deriving DecidableEq, Repr

/-- `AnalysisJob.update_progress(progress, status=None)`:
clamp the progress to `[0, 100]`, optionally set the status, set
`started_at` once on entering `RUNNING`, set `completed_at` on a terminal
status, and force progress to `100.0` on `COMPLETED`. -/
def update_progress (j : Job) (progress : ℚ) (status : Option JobStatus) : Job :=
  let j1 : Job := { j with progress := min 100 (max 0 progress) }
  let j2 : Job := match status with
    | some s => { j1 with status := s }
    | none => j1
  let j3 : Job :=
    if status = some JobStatus.running && !j2.startedSet then
      { j2 with startedSet := true }
    else j2
  match status with
  | some s =>
    if s = JobStatus.completed || s = JobStatus.failed || s = JobStatus.cancelled then
      let j4 : Job := { j3 with completedSet := true }
      if s = JobStatus.completed then { j4 with progress := 100 } else j4
    else j3
  | none => j3

/-! ### The orchestrator (`analyze_repository` in `app/tasks/analyzer.py`)

The task is a straight-line `try` block over the four stages, with a single
`except Exception` handler.  The external world it interacts with is
embedded in `Env`: whether the `Repository` row exists, the outcome of
`clone_repository` (the `subprocess.run(..., check=True, timeout=...)`
call, which raises on failure), the content of the cloned tree, the Ollama
response for each extracted call (by index), the point at which the graph
store raises inside `load_to_neo4j`'s loop (`none` = it never raises), and
the outcome of `shutil.rmtree` in `cleanup_clone`.  Database commits are
assumed to succeed. -/

/-- The environment one task run executes against. -/
structure Env where
  repoExists : Bool
  cloneResult : Except String Unit
  tree : FSTree
  llm : Nat → Except String LLMResponse
  neo4jFailAt : Option Nat
  cleanupResult : Except String Unit

/-- An `InferredDependency` row as persisted by the inference loop;
`callIndex` stands for `extracted_call_id` (the index of the owning
`ExtractedCall` in insertion order). -/
structure DepRow where
  callIndex : Nat
  caller : String
  callee : String
  confidence : ℚ
  model : String
  raw : String
deriving DecidableEq, Repr

/-- `result_summary` persisted with the `completed` transition. -/
structure Summary where
  totalCalls : Nat
  servicesFound : Nat
  dependenciesInferred : Nat
deriving DecidableEq, Repr

/-- The dict returned by the task: `{"error": msg, ...}` or the success
dict carrying the summary. -/
inductive RetVal where
  | errorMsg (msg : String)
  | success (summary : Summary)
deriving DecidableEq, Repr

/-- Observable outcome of one task run: final `AnalysisJob` row (`none`
if no job was created), last committed `Repository.status` (`none` if the
row was never written), the `(progress, status)` pair of the job row as
persisted at each `db.commit()`, the persisted `ExtractedCall` and
`InferredDependency` rows, the graph-store state, whether `cleanup_clone`
was reached and whether it completed, and the task's return value. -/
structure RunState where
  job : Option Job
  repoStatus : Option RepoStatus
  trace : List (ℚ × JobStatus)
  extractedCalls : List WalkRec
  inferredDeps : List DepRow
  graph : Graph
  cleanupAttempted : Bool
  cleanupDone : Bool
  retval : RetVal
deriving DecidableEq, Repr

/-- The job-row snapshot persisted by one `db.commit()`. -/
def snap (j : Job) : ℚ × JobStatus := (j.progress, j.status)

/-- The inference loop of `analyze_repository`: for each saved
`ExtractedCall` (in order), call `infer_service_dependency`; persist an
`InferredDependency` only when it returned a dict. -/
def inferredRows (calls : List WalkRec) (llm : Nat → Except String LLMResponse) :
    List DepRow :=
  calls.enum.filterMap fun ic =>
    match infer_service_dependency (llm ic.1) with
    | some inf =>
      some { callIndex := ic.1, caller := ic.2.service, callee := inf.callee,
             confidence := inf.confidence, model := inf.model,
             raw := inf.rawResponse }
    | none => none

/-- The join performed by `load_to_neo4j`: for each `ExtractedCall`, look
up its `InferredDependency` (`scalar_one_or_none` on `extracted_call_id`);
calls without one are skipped. -/
def joinedRecords (calls : List WalkRec) (deps : List DepRow) : List DepRecord :=
  calls.enum.filterMap fun ic =>
    match deps.find? (fun d => d.callIndex = ic.1) with
    | some d =>
      some { caller := d.caller, callee := d.callee, method := ic.2.method,
             url := ic.2.url, confidence := some d.confidence }
    | none => none

/-- `analyze_repository(repository_id)` over environment `env`, starting
from graph-store state `g0`; `now` models the wall clock used for
`updated_at`.  Mirrors the task body statement by statement, including
which exceptions reach the single `except` handler. -/
def analyze_repository (env : Env) (g0 : Graph) (now : Nat) : RunState :=
  if env.repoExists = false then
    -- `if not repo: return {"error": "Repository not found"}`
    { job := none, repoStatus := none, trace := [], extractedCalls := [],
      inferredDeps := [], graph := g0, cleanupAttempted := false,
      cleanupDone := false, retval := .errorMsg "Repository not found" }
  else
    -- job = AnalysisJob(status=RUNNING, progress=0.0, started_at=utcnow()); commit
    let job0 : Job := { status := .running, progress := 0, startedSet := true,
                        completedSet := false }
    let trace0 := [snap job0]
    -- repo.status = CLONING; commit
    let trace1 := trace0 ++ [snap job0]
    -- job.update_progress(10.0, RUNNING); commit
    let job1 := update_progress job0 10 (some .running)
    let trace2 := trace1 ++ [snap job1]
    match env.cloneResult with
    | .error e =>
      -- clone_repository raised; caught by the handler
      let jobF : Job := { job1 with status := .failed, completedSet := true }
      { job := some jobF, repoStatus := some .failed,
        trace := trace2 ++ [snap jobF], extractedCalls := [],
        inferredDeps := [], graph := g0, cleanupAttempted := false,
        cleanupDone := false, retval := .errorMsg e }
    | .ok _ =>
      -- repo.clone_path / commit_hash / file_count; commit
      let trace3 := trace2 ++ [snap job1]
      -- job.update_progress(30.0, RUNNING); commit
      let job2 := update_progress job1 30 (some .running)
      let trace4 := trace3 ++ [snap job2]
      -- repo.status = ANALYZING; commit
      let trace5 := trace4 ++ [snap job2]
      -- extracted_calls = extract_http_calls(clone_path); save rows; commit
      let extracted := walk_and_extract_calls env.tree
      let trace6 := trace5 ++ [snap job2]
      -- job.update_progress(60.0, RUNNING); commit
      let job3 := update_progress job2 60 (some .running)
      let trace7 := trace6 ++ [snap job3]
      -- inference loop over the saved calls; commit
      let deps := inferredRows extracted env.llm
      let trace8 := trace7 ++ [snap job3]
      -- job.update_progress(90.0, RUNNING); commit
      let job4 := update_progress job3 90 (some .running)
      let trace9 := trace8 ++ [snap job4]
      -- load_to_neo4j: its own try/except swallows any graph-store failure
      let joined := joinedRecords extracted deps
      let g1 := match env.neo4jFailAt with
        | none => load_to_neo4j_loop g0 joined now
        | some k => load_to_neo4j_loop g0 (joined.take k) now
      -- repo.status = COMPLETED; job.update_progress(100.0, COMPLETED);
      -- completed_at; result_summary; commit
      let job5 := update_progress job4 100 (some .completed)
      let summary : Summary :=
        { totalCalls := extracted.length,
          servicesFound := (extracted.map (·.service)).dedup.length,
          dependenciesInferred := deps.length }
      let trace10 := trace9 ++ [snap job5]
      -- cleanup_clone(clone_path): still inside the try block
      match env.cleanupResult with
      | .ok _ =>
        { job := some job5, repoStatus := some .completed, trace := trace10,
          extractedCalls := extracted, inferredDeps := deps, graph := g1,
          cleanupAttempted := true, cleanupDone := true,
          retval := .success summary }
      | .error e =>
        -- shutil.rmtree raised; caught by the same handler
        let jobF : Job := { job5 with status := .failed, completedSet := true }
        { job := some jobF, repoStatus := some .failed,
          trace := trace10 ++ [snap jobF], extractedCalls := extracted,
          inferredDeps := deps, graph := g1, cleanupAttempted := true,
          cleanupDone := false, retval := .errorMsg e }

/-! ### Materializer lemmas and observations on the graph-store state -/

def rkey (r : DepRecord) : EdgeKey := (r.caller, r.callee, r.url)

def mkProps (r : DepRecord) (now : Nat) : EdgeProps :=
  { method := r.method, confidence := r.confidence, updatedAt := now }

def edgeLookup (es : List (EdgeKey × EdgeProps)) (k : EdgeKey) : Option EdgeProps :=
  match es with
  | [] => none
  | e :: rest => if e.1 = k then some e.2 else edgeLookup rest k

theorem mem_mergeNode (ns : List String) (a b : String) :
    a ∈ mergeNode ns b ↔ a ∈ ns ∨ a = b := by
  unfold mergeNode
  split
  · rename_i hb
    constructor
    · exact Or.inl
    · rintro (h | rfl)
      · exact h
      · exact hb
  · simp

theorem mergeNode_of_mem {ns : List String} {b : String} (h : b ∈ ns) :
    mergeNode ns b = ns := by
  simp [mergeNode, h]

theorem mergeNode_nodup {ns : List String} {b : String} (h : ns.Nodup) :
    (mergeNode ns b).Nodup := by
  unfold mergeNode
  split
  · exact h
  · simp_all [List.nodup_append]

theorem loadOne_nodes (g : Graph) (r : DepRecord) (now : Nat) :
    (loadOne g r now).nodes = mergeNode (mergeNode g.nodes r.caller) r.callee := by
  show mergeNode (mergeNode (mergeNode (mergeNode g.nodes r.caller) r.callee) r.caller) r.callee
    = _
  rw [mergeNode_of_mem (b := r.caller), mergeNode_of_mem (b := r.callee)]
  · simp [mem_mergeNode]
  · rw [mem_mergeNode, mem_mergeNode]
    tauto

theorem loadOne_edges (g : Graph) (r : DepRecord) (now : Nat) :
    (loadOne g r now).edges = upsertEdge g.edges (rkey r) (mkProps r now) := rfl

theorem keys_upsertEdge (es : List (EdgeKey × EdgeProps)) (k : EdgeKey) (p : EdgeProps) :
    (upsertEdge es k p).map Prod.fst =
      if k ∈ es.map Prod.fst then es.map Prod.fst else es.map Prod.fst ++ [k] := by
  unfold upsertEdge
  split
  · simp only [List.map_map, if_pos ‹k ∈ es.map Prod.fst›]
    refine List.map_congr_left ?_
    intro e _
    by_cases he : e.1 = k <;> simp [he]
  · simp_all

theorem edgeLookup_upsertMap (es : List (EdgeKey × EdgeProps)) (k : EdgeKey)
    (p : EdgeProps) (k' : EdgeKey) :
    edgeLookup (es.map fun e => if e.1 = k then (k, p) else e) k' =
      if k' = k then (edgeLookup es k).map (fun _ => p) else edgeLookup es k' := by
  induction es with
  | nil => simp [edgeLookup]
  | cons e rest ih =>
    by_cases he : e.1 = k
    · by_cases hkk : k' = k
      · subst hkk
        simp [edgeLookup, he, ih]
      · have hkk' : ¬k = k' := fun hh => hkk hh.symm
        simp [edgeLookup, he, hkk, hkk', ih]
    · by_cases hek : e.1 = k'
      · by_cases hkk : k' = k
        · subst hkk
          exact absurd hek he
        · simp [edgeLookup, he, hek, hkk]
      · simp [edgeLookup, he, hek, ih]

theorem edgeLookup_isSome_of_mem {es : List (EdgeKey × EdgeProps)} {k : EdgeKey}
    (h : k ∈ es.map Prod.fst) : ∃ q, edgeLookup es k = some q := by
  induction es with
  | nil => simp at h
  | cons e rest ih =>
    by_cases he : e.1 = k
    · exact ⟨e.2, by simp [edgeLookup, he]⟩
    · have h' : k ∈ rest.map Prod.fst := by
        rcases List.mem_map.mp h with ⟨a, ha, hak⟩
        rcases List.mem_cons.mp ha with rfl | ha'
        · exact absurd hak he
        · exact List.mem_map.mpr ⟨a, ha', hak⟩
      obtain ⟨q, hq⟩ := ih h'
      exact ⟨q, by simp [edgeLookup, he, hq]⟩

theorem edgeLookup_eq_none_of_not_mem {es : List (EdgeKey × EdgeProps)} {k : EdgeKey}
    (h : k ∉ es.map Prod.fst) : edgeLookup es k = none := by
  induction es with
  | nil => rfl
  | cons e rest ih =>
    have he : ¬e.1 = k := fun hh => h (List.mem_map.mpr ⟨e, List.mem_cons_self e rest, hh⟩)
    have h' : k ∉ rest.map Prod.fst := fun hh => by
      rcases List.mem_map.mp hh with ⟨a, ha, hak⟩
      exact h (List.mem_map.mpr ⟨a, List.mem_cons_of_mem e ha, hak⟩)
    simp [edgeLookup, he, ih h']

theorem edgeLookup_append_single (es : List (EdgeKey × EdgeProps)) (k : EdgeKey)
    (p : EdgeProps) (k' : EdgeKey) :
    edgeLookup (es ++ [(k, p)]) k' =
      (match edgeLookup es k' with
       | some q => some q
       | none => if k' = k then some p else none) := by
  induction es with
  | nil =>
    by_cases h : k' = k
    · simp [edgeLookup, h]
    · have h' : ¬k = k' := fun hh => h hh.symm
      simp [edgeLookup, h, h']
  | cons e rest ih =>
    by_cases he : e.1 = k'
    · simp [edgeLookup, he]
    · simp [edgeLookup, he, ih]

theorem edgeLookup_upsert (es : List (EdgeKey × EdgeProps)) (k : EdgeKey)
    (p : EdgeProps) (k' : EdgeKey) :
    edgeLookup (upsertEdge es k p) k' =
      if k' = k then some p else edgeLookup es k' := by
  by_cases hk : k ∈ es.map Prod.fst
  · rw [upsertEdge, if_pos hk, edgeLookup_upsertMap]
    by_cases hkk : k' = k
    · obtain ⟨q, hq⟩ := edgeLookup_isSome_of_mem hk
      simp [hkk, hq]
    · simp [hkk]
  · rw [upsertEdge, if_neg hk, edgeLookup_append_single]
    by_cases hkk : k' = k
    · subst hkk
      simp [edgeLookup_eq_none_of_not_mem hk]
    · cases h : edgeLookup es k' <;> simp [hkk, h]


theorem load_cons (g : Graph) (r : DepRecord) (rs : List DepRecord) (now : Nat) :
    load_to_neo4j_loop g (r :: rs) now =
      load_to_neo4j_loop (loadOne g r now) rs now := rfl

theorem mem_nodes_load (rs : List DepRecord) (g : Graph) (now : Nat) (l : String) :
    l ∈ (load_to_neo4j_loop g rs now).nodes ↔
      l ∈ g.nodes ∨ ∃ r ∈ rs, r.caller = l ∨ r.callee = l := by
  induction rs generalizing g with
  | nil => simp [load_to_neo4j_loop]
  | cons r rs ih =>
    rw [load_cons, ih, loadOne_nodes, mem_mergeNode, mem_mergeNode]
    simp only [List.mem_cons]
    constructor
    · rintro (((h | h) | h) | ⟨r', hr', h⟩)
      · exact Or.inl h
      · exact Or.inr ⟨r, Or.inl rfl, Or.inl h.symm⟩
      · exact Or.inr ⟨r, Or.inl rfl, Or.inr h.symm⟩
      · exact Or.inr ⟨r', Or.inr hr', h⟩
    · rintro (h | ⟨r', (rfl | hr'), h⟩)
      · exact Or.inl (Or.inl (Or.inl h))
      · rcases h with h | h
        · exact Or.inl (Or.inl (Or.inr h.symm))
        · exact Or.inl (Or.inr h.symm)
      · exact Or.inr ⟨r', hr', h⟩

theorem mem_keys_load (rs : List DepRecord) (g : Graph) (now : Nat) (k : EdgeKey) :
    k ∈ (load_to_neo4j_loop g rs now).edges.map Prod.fst ↔
      k ∈ g.edges.map Prod.fst ∨ ∃ r ∈ rs, rkey r = k := by
  induction rs generalizing g with
  | nil => simp [load_to_neo4j_loop]
  | cons r rs ih =>
    rw [load_cons, ih, loadOne_edges, keys_upsertEdge]
    simp only [List.mem_cons]
    split
    · rename_i hin
      constructor
      · rintro (h | ⟨r', hr', h⟩)
        · exact Or.inl h
        · exact Or.inr ⟨r', Or.inr hr', h⟩
      · rintro (h | ⟨r', (rfl | hr'), h⟩)
        · exact Or.inl h
        · exact Or.inl (h ▸ hin)
        · exact Or.inr ⟨r', hr', h⟩
    · constructor
      · rintro (h | ⟨r', hr', h⟩)
        · rcases List.mem_append.mp h with h | h
          · exact Or.inl h
          · simp at h
            exact Or.inr ⟨r, Or.inl rfl, h.symm⟩
        · exact Or.inr ⟨r', Or.inr hr', h⟩
      · rintro (h | ⟨r', (rfl | hr'), h⟩)
        · exact Or.inl (List.mem_append.mpr (Or.inl h))
        · exact Or.inl (List.mem_append.mpr (Or.inr (by simp [h])))
        · exact Or.inr ⟨r', hr', h⟩

theorem nodes_nodup_load (rs : List DepRecord) (g : Graph) (now : Nat)
    (h : g.nodes.Nodup) : (load_to_neo4j_loop g rs now).nodes.Nodup := by
  induction rs generalizing g with
  | nil => exact h
  | cons r rs ih =>
    rw [load_cons]
    refine ih _ ?_
    rw [loadOne_nodes]
    exact mergeNode_nodup (mergeNode_nodup h)

theorem keys_nodup_upsert (es : List (EdgeKey × EdgeProps)) (k : EdgeKey)
    (p : EdgeProps) (h : (es.map Prod.fst).Nodup) :
    ((upsertEdge es k p).map Prod.fst).Nodup := by
  rw [keys_upsertEdge]
  split
  · exact h
  · rename_i hk
    simp [List.nodup_append, h, hk]

theorem keys_nodup_load (rs : List DepRecord) (g : Graph) (now : Nat)
    (h : (g.edges.map Prod.fst).Nodup) :
    ((load_to_neo4j_loop g rs now).edges.map Prod.fst).Nodup := by
  induction rs generalizing g with
  | nil => exact h
  | cons r rs ih =>
    rw [load_cons]
    refine ih _ ?_
    rw [loadOne_edges]
    exact keys_nodup_upsert _ _ _ h

theorem find?_append_single {α : Type} (l : List α) (x : α) (p : α → Bool) :
    (l ++ [x]).find? p =
      (match l.find? p with
       | some y => some y
       | none => if p x then some x else none) := by
  induction l with
  | nil =>
    by_cases h : p x <;> simp [List.find?, h]
  | cons a l ih =>
    by_cases h : p a <;> simp [List.find?, h, ih]

theorem edgeLookup_loadOne (g : Graph) (r : DepRecord) (now : Nat) (k : EdgeKey) :
    edgeLookup (loadOne g r now).edges k =
      if k = rkey r then some (mkProps r now) else edgeLookup g.edges k := by
  rw [loadOne_edges, edgeLookup_upsert]

theorem edgeLookup_load (rs : List DepRecord) (g : Graph) (now : Nat) (k : EdgeKey) :
    edgeLookup (load_to_neo4j_loop g rs now).edges k =
      (match rs.reverse.find? (fun r => rkey r = k) with
       | some r => some (mkProps r now)
       | none => edgeLookup g.edges k) := by
  induction rs generalizing g with
  | nil => simp [load_to_neo4j_loop]
  | cons r rs ih =>
    rw [load_cons, ih, List.reverse_cons, find?_append_single]
    cases h : rs.reverse.find? (fun r => rkey r = k) with
    | some r' => simp
    | none =>
      simp only [edgeLookup_loadOne]
      by_cases hk : rkey r = k
      · simp [hk]
      · have hk' : ¬k = rkey r := fun hh => hk hh.symm
        simp [hk, hk']


theorem load_fixed (rs : List DepRecord) (g : Graph) (now : Nat)
    (h : ∀ r ∈ rs, r.caller ∈ g.nodes ∧ r.callee ∈ g.nodes ∧
      rkey r ∈ g.edges.map Prod.fst) :
    (load_to_neo4j_loop g rs now).nodes = g.nodes ∧
    (load_to_neo4j_loop g rs now).edges.map Prod.fst = g.edges.map Prod.fst := by
  induction rs generalizing g with
  | nil => exact ⟨rfl, rfl⟩
  | cons r rs ih =>
    obtain ⟨hc, he, hk⟩ := h r (List.mem_cons_self r rs)
    have hnodes : (loadOne g r now).nodes = g.nodes := by
      rw [loadOne_nodes, mergeNode_of_mem hc, mergeNode_of_mem he]
    have hkeys : (loadOne g r now).edges.map Prod.fst = g.edges.map Prod.fst := by
      rw [loadOne_edges, keys_upsertEdge, if_pos hk]
    rw [load_cons]
    have h' : ∀ r' ∈ rs, r'.caller ∈ (loadOne g r now).nodes ∧
        r'.callee ∈ (loadOne g r now).nodes ∧
        rkey r' ∈ (loadOne g r now).edges.map Prod.fst := by
      intro r' hr'
      obtain ⟨a, b, c⟩ := h r' (List.mem_cons_of_mem _ hr')
      exact ⟨by rw [hnodes]; exact a, by rw [hnodes]; exact b, by rw [hkeys]; exact c⟩
    obtain ⟨ihn, ihk⟩ := ih (loadOne g r now) h'
    exact ⟨ihn.trans hnodes, ihk.trans hkeys⟩

def depU1 : DepRecord :=
  { caller := "order_service", callee := "payment_service", method := "post",
    url := .str "http://payment/charge", confidence := some (4/5) }

def depU2 : DepRecord :=
  { caller := "order_service", callee := "payment_service", method := "get",
    url := .str "http://payment/status", confidence := some (4/5) }

/-- C3 counterexample: the claim fails as stated.  The Cypher `MERGE` in
`create_dependency_edge` keys the `CALLS` relationship on
`{url: $url}` as well as its endpoints, so two dependencies for the same
`(caller, callee)` pair with different URLs materialize into two edges,
not one. -/
theorem C3_counterexample :
    (load_to_neo4j_loop emptyGraph [depU1, depU2] 0).edges.length = 2 ∧
    (∀ e ∈ (load_to_neo4j_loop emptyGraph [depU1, depU2] 0).edges,
      e.1.1 = "order_service" ∧ e.1.2.1 = "payment_service") ∧
    (load_to_neo4j_loop emptyGraph [depU1, depU2] 0).nodes.length = 2 := by decide

/-- C3 (amended): after materializing any list of dependency records into
an empty graph store, there is exactly one node per distinct service label
seen as caller or callee (the node list has no duplicates and contains
exactly those labels), and exactly one directed edge per distinct
`(caller, callee, url)` triple — not per `(caller, callee)` pair — whose
method/confidence/timestamp properties are those of whichever record for
that triple was written last. -/
theorem C3_amended_edge_per_url (rs : List DepRecord) (now : Nat) :
    (load_to_neo4j_loop emptyGraph rs now).nodes.Nodup ∧
    (∀ l, l ∈ (load_to_neo4j_loop emptyGraph rs now).nodes ↔
      ∃ r ∈ rs, r.caller = l ∨ r.callee = l) ∧
    ((load_to_neo4j_loop emptyGraph rs now).edges.map Prod.fst).Nodup ∧
    (∀ k, k ∈ (load_to_neo4j_loop emptyGraph rs now).edges.map Prod.fst ↔
      ∃ r ∈ rs, rkey r = k) ∧
    (∀ k, edgeLookup (load_to_neo4j_loop emptyGraph rs now).edges k =
      (match rs.reverse.find? (fun r => rkey r = k) with
       | some r => some (mkProps r now)
       | none => none)) := by
  refine ⟨nodes_nodup_load rs emptyGraph now (by simp [emptyGraph]), ?_, ?_, ?_, ?_⟩
  · intro l
    rw [mem_nodes_load]
    simp [emptyGraph]
  · exact keys_nodup_load rs emptyGraph now (by simp [emptyGraph])
  · intro k
    rw [mem_keys_load]
    simp [emptyGraph]
  · intro k
    rw [edgeLookup_load]
    cases rs.reverse.find? (fun r => rkey r = k) <;> simp [emptyGraph, edgeLookup]

/-- C4: materialization is idempotent with respect to identical input:
running the `load_to_neo4j` loop a second time with the same records (at
any later timestamp) leaves the graph store with the same node count and
the same edge count as running it once, starting from any prior
graph-store state. -/
theorem C4_idempotent_counts (g : Graph) (rs : List DepRecord) (t1 t2 : Nat) :
    (load_to_neo4j_loop (load_to_neo4j_loop g rs t1) rs t2).nodes.length =
      (load_to_neo4j_loop g rs t1).nodes.length ∧
    (load_to_neo4j_loop (load_to_neo4j_loop g rs t1) rs t2).edges.length =
      (load_to_neo4j_loop g rs t1).edges.length := by
  have h : ∀ r ∈ rs, r.caller ∈ (load_to_neo4j_loop g rs t1).nodes ∧
      r.callee ∈ (load_to_neo4j_loop g rs t1).nodes ∧
      rkey r ∈ (load_to_neo4j_loop g rs t1).edges.map Prod.fst := by
    intro r hr
    refine ⟨?_, ?_, ?_⟩
    · exact (mem_nodes_load rs g t1 r.caller).mpr (Or.inr ⟨r, hr, Or.inl rfl⟩)
    · exact (mem_nodes_load rs g t1 r.callee).mpr (Or.inr ⟨r, hr, Or.inr rfl⟩)
    · exact (mem_keys_load rs g t1 (rkey r)).mpr (Or.inr ⟨r, hr, rfl⟩)
  obtain ⟨hn, hk⟩ := load_fixed rs (load_to_neo4j_loop g rs t1) t2 h
  refine ⟨by rw [hn], ?_⟩
  have := congrArg List.length hk
  rwa [List.length_map, List.length_map] at this

/-! ### Concrete environments used by counterexamples and witnesses -/

/-- A run in which every pipeline stage succeeds (over an empty snapshot,
with the inference service down) but `shutil.rmtree` raises in
`cleanup_clone`. -/
def envCleanupFail : Env :=
  { repoExists := true
    cloneResult := Except.ok ()
    tree := FSTree.mk [] []
    llm := fun _ => Except.error "connection refused"
    neo4jFailAt := none
    cleanupResult := Except.error "rmtree: permission denied" }

/-- A run in which `git clone` fails. -/
def envCloneFail : Env :=
  { repoExists := true
    cloneResult := Except.error "git clone exited with status 128"
    tree := FSTree.mk [] []
    llm := fun _ => Except.error "connection refused"
    neo4jFailAt := none
    cleanupResult := Except.ok () }

/-- A run invoked with a repository id matching no stored `Repository`. -/
def envRepoMissing : Env :=
  { repoExists := false
    cloneResult := Except.ok ()
    tree := FSTree.mk [] []
    llm := fun _ => Except.error "connection refused"
    neo4jFailAt := none
    cleanupResult := Except.ok () }

/-! ### C1 — job progress lifecycle -/

/-- C1 counterexample: the claim fails as stated.  In a run where every
pipeline stage succeeds but `cleanup_clone` raises, the job is first
committed as `completed` with progress `100`, then the `except` handler
flips it to `failed` without touching progress: the job ends in `failed`
with progress exactly `100`, contradicting "a job that ends in `failed`
or `cancelled` has progress strictly below 100". -/
theorem C1_counterexample :
    (analyze_repository envCleanupFail emptyGraph 0).job.map Job.status =
      some .failed ∧
    (analyze_repository envCleanupFail emptyGraph 0).job.map Job.progress =
      some 100 ∧
    (analyze_repository envCleanupFail emptyGraph 0).trace.getLast? =
      some (100, .failed) := by decide

/-- C1 (amended): for every run, the sequence of persisted progress values
is non-decreasing and every written value lies in `[0, 100]`; a job whose
final status is `completed` has progress exactly `100`; `cancelled` is
never produced; and a job whose final status is `failed` has progress
strictly below `100` unless the failure was raised by `cleanup_clone`
after the `completed` state had already been persisted, in which case it
ends `failed` with progress exactly `100`. -/
theorem C1_amended_progress_lifecycle (env : Env) (g0 : Graph) (now : Nat) :
    (((analyze_repository env g0 now).trace.map Prod.fst).Chain' (· ≤ ·)) ∧
    (∀ p ∈ (analyze_repository env g0 now).trace, 0 ≤ p.1 ∧ p.1 ≤ 100) ∧
    (match (analyze_repository env g0 now).job with
     | none => (analyze_repository env g0 now).trace = []
     | some j =>
       j.status ≠ .cancelled ∧
       (j.status = .completed → j.progress = 100) ∧
       (j.status = .failed → j.progress < 100 ∨
         (j.progress = 100 ∧
          (analyze_repository env g0 now).cleanupAttempted = true ∧
          (analyze_repository env g0 now).cleanupDone = false))) := by
  obtain ⟨re, cr, tree, llm, nf, clr⟩ := env
  cases re <;> rcases cr with e | ⟨⟩ <;> rcases clr with e' | ⟨⟩ <;>
    simp [analyze_repository, snap, update_progress] <;> decide

/-! ### C2 — snapshot cleanup policy -/

/-- C2 counterexample: the claim fails as stated, in both halves.  When the
clone fails, the job ends `failed` and `cleanup_clone` is never reached
(the snapshot directory is not removed on that outcome); and when the
deletion itself raises, the exception is caught by the task's general
handler, which transitions the job to `failed`. -/
theorem C2_counterexample :
    ((analyze_repository envCloneFail emptyGraph 0).job.map Job.status =
        some .failed ∧
     (analyze_repository envCloneFail emptyGraph 0).cleanupAttempted = false) ∧
    ((analyze_repository envCleanupFail emptyGraph 0).cleanupAttempted = true ∧
     (analyze_repository envCleanupFail emptyGraph 0).cleanupDone = false ∧
     (analyze_repository envCleanupFail emptyGraph 0).job.map Job.status =
       some .failed) := by decide

/-- C2 (amended): `cleanup_clone` runs exactly when the pipeline reached the
success path (the repository exists and the clone succeeded); when it runs
and deletion succeeds the snapshot is removed; and when deletion raises,
the error is caught by the job's failure handler, so the already-completed
job transitions to `failed` and the raw deletion error is returned. -/
theorem C2_amended_cleanup_semantics (env : Env) (g0 : Graph) (now : Nat) :
    ((analyze_repository env g0 now).cleanupAttempted = true ↔
      (env.repoExists = true ∧ env.cloneResult = Except.ok ())) ∧
    (env.cleanupResult = Except.ok () →
      (analyze_repository env g0 now).cleanupDone =
        (analyze_repository env g0 now).cleanupAttempted) ∧
    (∀ e, env.cleanupResult = Except.error e →
      (analyze_repository env g0 now).cleanupAttempted = true →
      (analyze_repository env g0 now).job.map Job.status = some .failed ∧
      (analyze_repository env g0 now).retval = .errorMsg e ∧
      (analyze_repository env g0 now).cleanupDone = false) := by
  obtain ⟨re, cr, tree, llm, nf, clr⟩ := env
  cases re <;> rcases cr with e | ⟨⟩ <;> rcases clr with e' | ⟨⟩ <;>
    simp [analyze_repository]

/-! ### C5 — graph-store failure is isolated from the job outcome -/

/-- C5: a failure raised at any point `k` of the materialization loop is
swallowed inside `load_to_neo4j`: compared with a run where the graph
store is fully reachable, the job row, its persisted trace, the repository
status, the relational `ExtractedCall` and `InferredDependency` records
and the returned value are all identical; in particular, on the otherwise
successful path the job still ends `completed`. -/
theorem C5_graph_failure_isolated (env : Env) (g0 : Graph) (now k : Nat) :
    (analyze_repository { env with neo4jFailAt := some k } g0 now).job =
      (analyze_repository { env with neo4jFailAt := none } g0 now).job ∧
    (analyze_repository { env with neo4jFailAt := some k } g0 now).trace =
      (analyze_repository { env with neo4jFailAt := none } g0 now).trace ∧
    (analyze_repository { env with neo4jFailAt := some k } g0 now).repoStatus =
      (analyze_repository { env with neo4jFailAt := none } g0 now).repoStatus ∧
    (analyze_repository { env with neo4jFailAt := some k } g0 now).extractedCalls =
      (analyze_repository { env with neo4jFailAt := none } g0 now).extractedCalls ∧
    (analyze_repository { env with neo4jFailAt := some k } g0 now).inferredDeps =
      (analyze_repository { env with neo4jFailAt := none } g0 now).inferredDeps ∧
    (analyze_repository { env with neo4jFailAt := some k } g0 now).retval =
      (analyze_repository { env with neo4jFailAt := none } g0 now).retval ∧
    (env.repoExists = true → env.cloneResult = Except.ok () →
      env.cleanupResult = Except.ok () →
      (analyze_repository { env with neo4jFailAt := some k } g0 now).job.map
        Job.status = some .completed) := by
  obtain ⟨re, cr, tree, llm, nf, clr⟩ := env
  cases re <;> rcases cr with e | ⟨⟩ <;> rcases clr with e' | ⟨⟩ <;>
    simp [analyze_repository] <;> decide

/-! ### C10 — unknown repository id -/

/-- C10: when the repository lookup returns no row, the task returns
`{"error": "Repository not found"}` and performs no writes: no
`AnalysisJob` row is created, the `Repository` row is never written, no
job snapshot is committed, no `ExtractedCall` or `InferredDependency` rows
are persisted, and the graph store is left exactly as it was. -/
theorem C10_repo_not_found_no_writes (env : Env) (g0 : Graph) (now : Nat)
    (h : env.repoExists = false) :
    (analyze_repository env g0 now).job = none ∧
    (analyze_repository env g0 now).repoStatus = none ∧
    (analyze_repository env g0 now).trace = [] ∧
    (analyze_repository env g0 now).extractedCalls = [] ∧
    (analyze_repository env g0 now).inferredDeps = [] ∧
    (analyze_repository env g0 now).graph = g0 ∧
    (analyze_repository env g0 now).retval = .errorMsg "Repository not found" := by
  simp [analyze_repository, h]

/-- C10 witness: the theorem applied to a concrete environment whose
repository lookup fails. -/
theorem C10_witness :
    envRepoMissing.repoExists = false ∧
    ((analyze_repository envRepoMissing emptyGraph 0).job = none ∧
     (analyze_repository envRepoMissing emptyGraph 0).repoStatus = none ∧
     (analyze_repository envRepoMissing emptyGraph 0).trace = [] ∧
     (analyze_repository envRepoMissing emptyGraph 0).extractedCalls = [] ∧
     (analyze_repository envRepoMissing emptyGraph 0).inferredDeps = [] ∧
     (analyze_repository envRepoMissing emptyGraph 0).graph = emptyGraph ∧
     (analyze_repository envRepoMissing emptyGraph 0).retval =
       .errorMsg "Repository not found") :=
  ⟨rfl, C10_repo_not_found_no_writes envRepoMissing emptyGraph 0 rfl⟩


/-! ### Extractor claims -/

/-- A tree with one Python file at the scanned root containing
`requests.get("http://a/b")` on line 1. -/
def rootTree : FSTree :=
  .mk [("main.py", .parsed [.call (.attribute (.name "requests") "get")
        [.constant (.str "http://a/b")] 1])] []

/-- The record the walk produces for `rootTree`: the caller-service label
of a root-level file is the file name itself. -/
def recMain : WalkRec :=
  { method := "get", url := .str "http://a/b", line := 1,
    file := "main.py", service := "main.py" }

theorem walkFiles_append (rel : List String) (xs ys : List (String × PyFile)) :
    walkFiles rel (xs ++ ys) = walkFiles rel xs ++ walkFiles rel ys := by
  induction xs with
  | nil => simp [walkFiles]
  | cons x xs ih =>
    obtain ⟨fname, content⟩ := x
    simp [walkFiles, ih]

/-- C9: the walk is total, and a file that fails to parse contributes zero
records while extraction continues over all remaining files: inserting an
unparsable file anywhere in a directory leaves the walk's output
unchanged. -/
theorem C9_unparsable_file_skipped (rel : List String)
    (fs1 fs2 : List (String × PyFile)) (n : String)
    (ds : List (String × FSTree)) :
    extract_http_calls_from_file PyFile.invalid = [] ∧
    walkTree rel (.mk (fs1 ++ (n, PyFile.invalid) :: fs2) ds) =
      walkTree rel (.mk (fs1 ++ fs2) ds) := by
  refine ⟨rfl, ?_⟩
  rw [walkTree, walkTree, walkFiles_append, walkFiles_append]
  simp [walkFiles, extract_http_calls_from_file, enrichRecords]

theorem enrichRecords_service (rel : List String) (fname : String)
    (recs : List RawCall) :
    ∀ rec ∈ enrichRecords rel fname recs,
      rec.service = (pySplit rec.file '/').headD "unknown" := by
  intro rec hrec
  rcases List.mem_map.mp hrec with ⟨c, _, rfl⟩
  cases h : pySplit (String.intercalate "/" (rel ++ [fname])) '/' <;>
    simp [enrichRecords, h]

theorem walkFiles_service (rel : List String) (fs : List (String × PyFile)) :
    ∀ rec ∈ walkFiles rel fs,
      rec.service = (pySplit rec.file '/').headD "unknown" := by
  induction fs with
  | nil => simp [walkFiles]
  | cons f rest ih =>
    obtain ⟨fname, content⟩ := f
    intro rec hrec
    rw [walkFiles] at hrec
    rcases List.mem_append.mp hrec with h | h
    · by_cases hpy : pyEndsWith fname ".py"
      · rw [if_pos hpy] at h
        exact enrichRecords_service rel fname _ rec h
      · rw [if_neg hpy] at h
        simp at h
    · exact ih rec h

theorem walkTree_service (rel : List String) (t : FSTree) :
    ∀ rec ∈ walkTree rel t,
      rec.service = (pySplit rec.file '/').headD "unknown" := by
  refine walkTree.induct
    (fun rel t => ∀ rec ∈ walkTree rel t,
      rec.service = (pySplit rec.file '/').headD "unknown")
    (fun rel ds => ∀ rec ∈ walkDirs rel ds,
      rec.service = (pySplit rec.file '/').headD "unknown")
    ?_ ?_ ?_ rel t
  · intro rel files dirs ihd rec hrec
    rw [walkTree] at hrec
    rcases List.mem_append.mp hrec with h | h
    · exact walkFiles_service rel files rec h
    · exact ihd rec h
  · intro rel rec hrec
    simp [walkDirs] at hrec
  · intro rel dname sub rest ih1 ih2 rec hrec
    rw [walkDirs] at hrec
    rcases List.mem_append.mp hrec with h | h
    · by_cases hd : dname ∈ prunedDirs
      · rw [if_pos hd] at h
        simp at h
      · rw [if_neg hd] at h
        exact ih1 rec h
    · exact ih2 rec h

/-- C7 counterexample: the claim fails for files at the scanned root.
`repo.split(os.sep)` in Python never yields an empty list, so
`parts[0] if parts else "unknown"` never takes the `"unknown"` branch: a
file `main.py` directly at the root yields a record whose caller-service
label is `"main.py"` — its own filename — not the sentinel `"unknown"`. -/
theorem C7_counterexample :
    walk_and_extract_calls rootTree = [recMain] ∧
    recMain.file = "main.py" ∧
    recMain.service = "main.py" ∧
    "main.py" ≠ "unknown" := by
  refine ⟨?_, rfl, rfl, by decide⟩
  simp only [walk_and_extract_calls, walkTree, walkFiles, walkDirs]
  decide

/-- C7 (amended): for every record produced by the extractor walk, the
caller-service label equals the first element of the file path split on
the separator (the first path segment); since the split of a path is
never empty, a file directly at the root gets its own filename as label,
and the `"unknown"` sentinel branch is dead code. -/
theorem C7_amended_service_label (t : FSTree) (rec : WalkRec)
    (h : rec ∈ walk_and_extract_calls t) :
    rec.service = (pySplit rec.file '/').headD "unknown" :=
  walkTree_service [] t rec h

/-- C7 witness: the amended theorem applied to the concrete root-file
tree. -/
theorem C7_witness :
    recMain ∈ walk_and_extract_calls rootTree ∧
    recMain.service = (pySplit recMain.file '/').headD "unknown" := by
  have hm : recMain ∈ walk_and_extract_calls rootTree := by
    simp only [walk_and_extract_calls, walkTree, walkFiles, walkDirs]
    decide
  exact ⟨hm, C7_amended_service_label rootTree recMain hm⟩

/-- Whether an expression is an `ast.Constant` node. -/
def isConstArg : PyExpr → Bool
  | .constant _ => true
  | _ => false

/-- C8 counterexample: the claim fails as stated.  Patterns 1 and 2 only
check `isinstance(node.args[0], ast.Constant)`, which any literal
constant satisfies: `requests.get(42)` has a non-string first argument
yet yields one record (with the integer as its url), not zero. -/
theorem C8_counterexample :
    extractCalls (.call (.attribute (.name "requests") "get")
      [.constant (.int 42)] 7) = [{ method := "get", url := .int 42, line := 7 }] ∧
    (∀ s : String, PyConst.int 42 ≠ PyConst.str s) :=
  ⟨rfl, fun s h => by cases h⟩

/-- C8 (amended): a call node yields a record only when its first
positional argument is a literal constant: whenever the first argument is
not an `ast.Constant` node (a variable, a concatenation, a nested call,
an attribute access), all three match patterns yield zero records.
A non-string constant, however, is accepted by patterns 1 and 2. -/
theorem C8_amended_nonconstant_skipped (func : PyExpr) (args : List PyExpr)
    (lineno : Nat) (a : PyExpr) (h1 : args.head? = some a)
    (h2 : isConstArg a = false) :
    matchCall func args lineno = [] := by
  cases args with
  | nil => simp at h1
  | cons b as =>
    obtain rfl : b = a := by simpa using h1
    unfold matchCall
    split
    · split
      · cases b <;> simp_all [isConstArg]
      · rfl
    · split
      · cases b <;> simp_all [isConstArg]
      · rfl
    · split
      · cases b <;> simp_all [isConstArg]
      · rfl
    · rfl

/-- C8 witness: the amended theorem applied to `client.get(user_supplied_var)`,
the example from the specification. -/
theorem C8_witness :
    ([PyExpr.name "user_supplied_var"].head? = some (PyExpr.name "user_supplied_var")) ∧
    isConstArg (PyExpr.name "user_supplied_var") = false ∧
    matchCall (.attribute (.name "client") "get") [.name "user_supplied_var"] 5 = [] :=
  ⟨rfl, rfl, C8_amended_nonconstant_skipped (.attribute (.name "client") "get")
    [.name "user_supplied_var"] 5 (.name "user_supplied_var") rfl rfl⟩

/-! ### C6 — per-call inference failure is isolated -/

theorem inferredRows_not_mem (calls : List WalkRec)
    (llm : Nat → Except String LLMResponse) (i : Nat)
    (h : infer_service_dependency (llm i) = none) :
    ∀ d ∈ inferredRows calls llm, d.callIndex ≠ i := by
  intro d hd
  rcases List.mem_filterMap.mp hd with ⟨ic, hic, hf⟩
  cases hinf : infer_service_dependency (llm ic.1) with
  | none => rw [hinf] at hf; cases hf
  | some inf =>
    rw [hinf] at hf
    cases hf
    intro hii
    simp only at hii
    rw [hii] at hinf
    rw [h] at hinf
    cases hinf

theorem inferredRows_mem_of_some (calls : List WalkRec)
    (llm : Nat → Except String LLMResponse) (j : Nat) (c : WalkRec)
    (inf : Inference) (hc : calls[j]? = some c)
    (hinf : infer_service_dependency (llm j) = some inf) :
    ∃ d ∈ inferredRows calls llm,
      d.callIndex = j ∧ d.callee = inf.callee ∧ d.caller = c.service := by
  have henum : (j, c) ∈ calls.enum := List.mk_mem_enum_iff_getElem?.mpr hc
  refine ⟨{ callIndex := j, caller := c.service, callee := inf.callee,
            confidence := inf.confidence, model := inf.model,
            raw := inf.rawResponse }, ?_, rfl, rfl, rfl⟩
  exact List.mem_filterMap.mpr ⟨(j, c), henum, by simp [hinf]⟩

/-- C6: for every ExtractedCall processed during the inference stage, a
failed inference (transport error or a body without a `"response"` field)
persists no InferredDependency for that call, while the ExtractedCall rows
are exactly the extractor's full output regardless of inference failures,
every call whose inference succeeded still gets its row, and the job does
not abort (on the otherwise successful path it still ends `completed`):
only the InferredDependency count is reduced, never the ExtractedCall
count. -/
theorem C6_inference_failure_isolated (env : Env) (g0 : Graph) (now : Nat) (i : Nat)
    (h1 : env.repoExists = true) (h2 : env.cloneResult = Except.ok ())
    (h3 : infer_service_dependency (env.llm i) = none) :
    (analyze_repository env g0 now).extractedCalls = walk_and_extract_calls env.tree ∧
    (analyze_repository env g0 now).inferredDeps =
      inferredRows (walk_and_extract_calls env.tree) env.llm ∧
    (∀ d ∈ (analyze_repository env g0 now).inferredDeps, d.callIndex ≠ i) ∧
    (∀ j c inf, (walk_and_extract_calls env.tree)[j]? = some c →
      infer_service_dependency (env.llm j) = some inf →
      ∃ d ∈ (analyze_repository env g0 now).inferredDeps,
        d.callIndex = j ∧ d.callee = inf.callee ∧ d.caller = c.service) ∧
    (env.cleanupResult = Except.ok () →
      (analyze_repository env g0 now).job.map Job.status = some .completed) := by
  obtain ⟨re, cr, tree, llm, nf, clr⟩ := env
  simp only at h1 h2 h3
  subst h1 h2
  have hext : (analyze_repository
      ⟨true, Except.ok (), tree, llm, nf, clr⟩ g0 now).extractedCalls =
      walk_and_extract_calls tree := by
    rcases clr with e | ⟨⟩ <;> simp [analyze_repository]
  have hdeps : (analyze_repository
      ⟨true, Except.ok (), tree, llm, nf, clr⟩ g0 now).inferredDeps =
      inferredRows (walk_and_extract_calls tree) llm := by
    rcases clr with e | ⟨⟩ <;> simp [analyze_repository]
  refine ⟨hext, hdeps, ?_, ?_, ?_⟩
  · rw [hdeps]
    exact inferredRows_not_mem _ llm i h3
  · intro j c inf hc hinf
    rw [hdeps]
    exact inferredRows_mem_of_some _ llm j c inf hc hinf
  · intro hcl
    rcases clr with e | ⟨⟩
    · cases hcl
    · simp [analyze_repository]
      decide

def treeTwo : FSTree :=
  .mk [] [("svc_a", .mk [("a.py", .parsed [.call (.attribute (.name "requests") "get")
            [.constant (.str "http://payment/x")] 3])] []),
          ("svc_b", .mk [("b.py", .parsed [.call (.attribute (.name "requests") "post")
            [.constant (.str "http://order/y")] 4])] [])]

def envInferMixed : Env :=
  { repoExists := true
    cloneResult := Except.ok ()
    tree := treeTwo
    llm := fun i => if i = 0 then Except.error "read timeout"
      else Except.ok { response := some "payment_service" }
    neo4jFailAt := none
    cleanupResult := Except.ok () }

/-- C6 witness: the theorem applied to a two-call repository whose first
inference call times out and whose second succeeds. -/
theorem C6_witness :
    envInferMixed.repoExists = true ∧
    envInferMixed.cloneResult = Except.ok () ∧
    infer_service_dependency (envInferMixed.llm 0) = none ∧
    ((analyze_repository envInferMixed emptyGraph 0).extractedCalls =
        walk_and_extract_calls envInferMixed.tree ∧
     (analyze_repository envInferMixed emptyGraph 0).inferredDeps =
        inferredRows (walk_and_extract_calls envInferMixed.tree) envInferMixed.llm ∧
     (∀ d ∈ (analyze_repository envInferMixed emptyGraph 0).inferredDeps,
        d.callIndex ≠ 0) ∧
     (∀ j c inf, (walk_and_extract_calls envInferMixed.tree)[j]? = some c →
        infer_service_dependency (envInferMixed.llm j) = some inf →
        ∃ d ∈ (analyze_repository envInferMixed emptyGraph 0).inferredDeps,
          d.callIndex = j ∧ d.callee = inf.callee ∧ d.caller = c.service) ∧
     (envInferMixed.cleanupResult = Except.ok () →
        (analyze_repository envInferMixed emptyGraph 0).job.map Job.status =
          some .completed)) :=
  ⟨rfl, rfl, rfl, C6_inference_failure_isolated envInferMixed emptyGraph 0 0 rfl rfl rfl⟩

end ServiceScope
